import Mathlib

/-!
# Verification of the train/dev/test corpus partitioner

Shallow embedding of the document-split loop in section 1.3 of
`hardware_image/transistor_image_tutorial.ipynb`:

```python
docs = session.query(Document).order_by(Document.name).all()
ld   = len(docs)
train_docs = set()
dev_docs   = set()
test_docs  = set()
splits = (0.5, 0.75)
data = [(doc.name, doc) for doc in docs]
data.sort(key=lambda x: x[0])
for i, (doc_name, doc) in enumerate(data):
    if i < splits[0] * ld:
        train_docs.add(doc)
    elif i < splits[1] * ld:
        dev_docs.add(doc)
    else:
        test_docs.add(doc)
```

Documents are modelled by the one field the loop inspects, their `name`
(the sort key `x[0]`); the split fractions are modelled as rationals.
-/

/-- A parsed document.  The split loop only ever looks at `doc.name`
(the sort key of `data = [(doc.name, doc) for doc in docs]`). -/
structure Doc where
  name : String
deriving DecidableEq

/-- `data.sort(key=lambda x: x[0])`: the documents sorted by name ascending. -/
def sortDocs (docs : List Doc) : List Doc :=
  List.insertionSort (fun a b => a.name ≤ b.name) docs

/-- The three branches of the loop body. -/
inductive Bucket
  | train
  | dev
  | test
deriving DecidableEq

/-- The branch taken for the document at 0-indexed rank `i` when `ld`
documents are split at fractions `f1 = splits[0]`, `f2 = splits[1]`:
`if i < splits[0] * ld: ... elif i < splits[1] * ld: ... else: ...`. -/
def bucket (f1 f2 : ℚ) (ld i : ℕ) : Bucket :=
  if (i : ℚ) < f1 * ld then .train
  else if (i : ℚ) < f2 * ld then .dev
  else .test

/-- Project one of the three result sets `(train_docs, dev_docs, test_docs)`. -/
def pick : Bucket → Finset Doc × Finset Doc × Finset Doc → Finset Doc
  | .train, p => p.1
  | .dev,   p => p.2.1
  | .test,  p => p.2.2

/-- The loop `for i, (doc_name, doc) in enumerate(data)` run from index `i`
over the remaining suffix of the sorted data, adding each document to the
set chosen by its branch. -/
def splitFrom (f1 f2 : ℚ) (ld : ℕ) : ℕ → List Doc → Finset Doc × Finset Doc × Finset Doc
  | _, [] => (∅, ∅, ∅)
  | i, d :: rest =>
    let p := splitFrom f1 f2 ld (i + 1) rest
    match bucket f1 f2 ld i with
    | .train => (insert d p.1, p.2.1, p.2.2)
    | .dev   => (p.1, insert d p.2.1, p.2.2)
    | .test  => (p.1, p.2.1, insert d p.2.2)

/-- The whole split: `ld = len(docs)`, sort by name, run the loop from
index 0, return `(train_docs, dev_docs, test_docs)`. -/
def partition (f1 f2 : ℚ) (docs : List Doc) : Finset Doc × Finset Doc × Finset Doc :=
  splitFrom f1 f2 docs.length 0 (sortDocs docs)

/-- The document store the loop reads from (`session.query(Document)...`).
The loop only reads it, so the embedding passes it through unchanged. -/
structure Store where
  docs : List Doc

/-- The split section as a state transformer over the store: it queries the
documents and returns the three sets; no statement writes the store. -/
def runSplit (f1 f2 : ℚ) (s : Store) : Store × (Finset Doc × Finset Doc × Finset Doc) :=
  (s, partition f1 f2 s.docs)

/-! ## Basic facts about the sort and the loop -/

instance : IsTotal Doc (fun a b => a.name ≤ b.name) :=
  ⟨fun a b => le_total a.name b.name⟩

instance : IsTrans Doc (fun a b => a.name ≤ b.name) :=
  ⟨fun _ _ _ hab hbc => le_trans hab hbc⟩

instance : IsAntisymm Doc (fun a b => a.name ≤ b.name) :=
  ⟨fun a b hab hba => by
    cases a; cases b
    simp only [Doc.mk.injEq]
    exact le_antisymm hab hba⟩

theorem sortDocs_perm (docs : List Doc) : (sortDocs docs).Perm docs :=
  List.perm_insertionSort _ docs

theorem sortDocs_length (docs : List Doc) : (sortDocs docs).length = docs.length :=
  (sortDocs_perm docs).length_eq

theorem sortDocs_sorted (docs : List Doc) :
    (sortDocs docs).Sorted (fun a b => a.name ≤ b.name) :=
  List.sorted_insertionSort _ docs

theorem pick_splitFrom_cons (f1 f2 : ℚ) (ld : ℕ) (b : Bucket) (i : ℕ) (d : Doc)
    (rest : List Doc) :
    pick b (splitFrom f1 f2 ld i (d :: rest)) =
      if bucket f1 f2 ld i = b then insert d (pick b (splitFrom f1 f2 ld (i + 1) rest))
      else pick b (splitFrom f1 f2 ld (i + 1) rest) := by
  rcases hb : bucket f1 f2 ld i with _ | _ | _ <;> cases b <;>
    simp [splitFrom, pick, hb]

/-- Membership in a result set of the loop, characterised by position:
`d` lands in bucket `b` iff some position `j` of the processed suffix holds
`d` and the branch at absolute index `i + j` is `b`. -/
theorem mem_pick_splitFrom (f1 f2 : ℚ) (ld : ℕ) (b : Bucket) (d : Doc) :
    ∀ (l : List Doc) (i : ℕ),
      d ∈ pick b (splitFrom f1 f2 ld i l) ↔
        ∃ j, ∃ hj : j < l.length, l.get ⟨j, hj⟩ = d ∧ bucket f1 f2 ld (i + j) = b := by
  intro l
  induction l with
  | nil =>
    intro i
    constructor
    · intro hd
      cases b <;> simp [splitFrom, pick] at hd
    · rintro ⟨j, hj, -⟩
      simp at hj
  | cons a l ih =>
    intro i
    rw [pick_splitFrom_cons]
    by_cases h : bucket f1 f2 ld i = b
    · rw [if_pos h, Finset.mem_insert, ih (i + 1)]
      constructor
      · rintro (rfl | ⟨j, hj, hget, hb⟩)
        · exact ⟨0, Nat.succ_pos _, rfl, by simpa using h⟩
        · refine ⟨j + 1, Nat.succ_lt_succ hj, hget, ?_⟩
          rw [show i + (j + 1) = i + 1 + j by omega]
          exact hb
      · rintro ⟨j, hj, hget, hb⟩
        cases j with
        | zero => exact Or.inl hget.symm
        | succ k =>
          refine Or.inr ⟨k, Nat.lt_of_succ_lt_succ hj, hget, ?_⟩
          rw [show i + 1 + k = i + (k + 1) by omega]
          exact hb
    · rw [if_neg h, ih (i + 1)]
      constructor
      · rintro ⟨j, hj, hget, hb⟩
        refine ⟨j + 1, Nat.succ_lt_succ hj, hget, ?_⟩
        rw [show i + (j + 1) = i + 1 + j by omega]
        exact hb
      · rintro ⟨j, hj, hget, hb⟩
        cases j with
        | zero => exact absurd (by simpa using hb) h
        | succ k =>
          refine ⟨k, Nat.lt_of_succ_lt_succ hj, hget, ?_⟩
          rw [show i + 1 + k = i + (k + 1) by omega]
          exact hb

/-- Membership in a result set of the whole split. -/
theorem mem_pick_partition (f1 f2 : ℚ) (docs : List Doc) (b : Bucket) (d : Doc) :
    d ∈ pick b (partition f1 f2 docs) ↔
      ∃ j, ∃ hj : j < (sortDocs docs).length,
        (sortDocs docs).get ⟨j, hj⟩ = d ∧ bucket f1 f2 docs.length j = b := by
  unfold partition
  rw [mem_pick_splitFrom]
  simp only [Nat.zero_add]

/-! ## Unfolding the branch conditions -/

theorem bucket_eq_train_iff (f1 f2 : ℚ) (ld i : ℕ) :
    bucket f1 f2 ld i = .train ↔ (i : ℚ) < f1 * ld := by
  unfold bucket
  split_ifs with h1 h2 <;> simp_all

theorem bucket_eq_dev_iff (f1 f2 : ℚ) (ld i : ℕ) :
    bucket f1 f2 ld i = .dev ↔ ¬ (i : ℚ) < f1 * ld ∧ (i : ℚ) < f2 * ld := by
  unfold bucket
  split_ifs with h1 h2 <;> simp_all

theorem bucket_eq_test_iff (f1 f2 : ℚ) (ld i : ℕ) :
    bucket f1 f2 ld i = .test ↔ ¬ (i : ℚ) < f1 * ld ∧ ¬ (i : ℚ) < f2 * ld := by
  unfold bucket
  split_ifs with h1 h2 <;> simp_all

/-! ## Union and disjointness of the three result sets -/

theorem partition_union (f1 f2 : ℚ) (docs : List Doc) :
    (partition f1 f2 docs).1 ∪ (partition f1 f2 docs).2.1 ∪ (partition f1 f2 docs).2.2 =
      docs.toFinset := by
  ext d
  simp only [Finset.mem_union, List.mem_toFinset]
  constructor
  · rintro ((hd | hd) | hd)
    · obtain ⟨j, hj, hget, -⟩ := (mem_pick_partition f1 f2 docs .train d).mp hd
      exact (sortDocs_perm docs).mem_iff.mp (hget ▸ List.get_mem _ _ hj)
    · obtain ⟨j, hj, hget, -⟩ := (mem_pick_partition f1 f2 docs .dev d).mp hd
      exact (sortDocs_perm docs).mem_iff.mp (hget ▸ List.get_mem _ _ hj)
    · obtain ⟨j, hj, hget, -⟩ := (mem_pick_partition f1 f2 docs .test d).mp hd
      exact (sortDocs_perm docs).mem_iff.mp (hget ▸ List.get_mem _ _ hj)
  · intro hd
    have hd2 : d ∈ sortDocs docs := (sortDocs_perm docs).mem_iff.mpr hd
    obtain ⟨j, hget⟩ := List.mem_iff_get.mp hd2
    rcases hb : bucket f1 f2 docs.length j with _ | _ | _
    · exact Or.inl (Or.inl ((mem_pick_partition f1 f2 docs .train d).mpr
        ⟨j, j.isLt, hget, hb⟩))
    · exact Or.inl (Or.inr ((mem_pick_partition f1 f2 docs .dev d).mpr
        ⟨j, j.isLt, hget, hb⟩))
    · exact Or.inr ((mem_pick_partition f1 f2 docs .test d).mpr
        ⟨j, j.isLt, hget, hb⟩)

theorem nodup_sortDocs_of_names (docs : List Doc)
    (hnd : (docs.map Doc.name).Nodup) : (sortDocs docs).Nodup :=
  ((sortDocs_perm docs).nodup_iff).mpr hnd.of_map

theorem partition_pick_disjoint (f1 f2 : ℚ) (docs : List Doc)
    (hnd : (docs.map Doc.name).Nodup) (b1 b2 : Bucket) (hne : b1 ≠ b2) :
    Disjoint (pick b1 (partition f1 f2 docs)) (pick b2 (partition f1 f2 docs)) := by
  rw [Finset.disjoint_left]
  intro d h1 h2
  obtain ⟨j1, hj1, hg1, hb1⟩ := (mem_pick_partition f1 f2 docs b1 d).mp h1
  obtain ⟨j2, hj2, hg2, hb2⟩ := (mem_pick_partition f1 f2 docs b2 d).mp h2
  have hnodup : (sortDocs docs).Nodup := nodup_sortDocs_of_names docs hnd
  have hij : (⟨j1, hj1⟩ : Fin (sortDocs docs).length) = ⟨j2, hj2⟩ :=
    hnodup.get_inj_iff.mp (hg1.trans hg2.symm)
  have hj : j1 = j2 := by simpa using hij
  exact hne ((hj ▸ hb1).symm.trans hb2)

/-- With unique names, the document at rank `j` of the sorted list is in a
result set exactly when its branch picks that set. -/
theorem get_mem_pick_iff (f1 f2 : ℚ) (docs : List Doc)
    (hnd : (docs.map Doc.name).Nodup) (b : Bucket) (j : ℕ)
    (hj : j < (sortDocs docs).length) :
    (sortDocs docs).get ⟨j, hj⟩ ∈ pick b (partition f1 f2 docs) ↔
      bucket f1 f2 docs.length j = b := by
  rw [mem_pick_partition]
  constructor
  · rintro ⟨j2, hj2, hg, hb⟩
    have hnodup : (sortDocs docs).Nodup := nodup_sortDocs_of_names docs hnd
    have hij : (⟨j2, hj2⟩ : Fin (sortDocs docs).length) = ⟨j, hj⟩ :=
      hnodup.get_inj_iff.mp hg
    have : j2 = j := by simpa using hij
    exact this ▸ hb
  · intro hb
    exact ⟨j, hj, rfl, hb⟩

/-! ## Emptiness helpers -/

theorem partition_dev_empty_of_le (f1 f2 : ℚ) (docs : List Doc) (h : f2 ≤ f1) :
    (partition f1 f2 docs).2.1 = ∅ := by
  rw [Finset.eq_empty_iff_forall_not_mem]
  intro d hd
  obtain ⟨j, hj, -, hb⟩ := (mem_pick_partition f1 f2 docs .dev d).mp hd
  obtain ⟨hb1, hb2⟩ := (bucket_eq_dev_iff f1 f2 docs.length j).mp hb
  exact hb1 (hb2.trans_le (mul_le_mul_of_nonneg_right h (Nat.cast_nonneg _)))

theorem partition_train_empty_of_nonpos (f1 f2 : ℚ) (docs : List Doc) (h : f1 ≤ 0) :
    (partition f1 f2 docs).1 = ∅ := by
  rw [Finset.eq_empty_iff_forall_not_mem]
  intro d hd
  obtain ⟨j, hj, -, hb⟩ := (mem_pick_partition f1 f2 docs .train d).mp hd
  have hlt : (j : ℚ) < f1 * docs.length := (bucket_eq_train_iff f1 f2 docs.length j).mp hb
  have hle : f1 * (docs.length : ℚ) ≤ 0 :=
    mul_nonpos_of_nonpos_of_nonneg h (Nat.cast_nonneg _)
  exact absurd (hlt.trans_le hle) (not_lt.mpr (Nat.cast_nonneg j))

theorem partition_test_empty_of_one_le (f1 f2 : ℚ) (docs : List Doc) (h : 1 ≤ f2) :
    (partition f1 f2 docs).2.2 = ∅ := by
  rw [Finset.eq_empty_iff_forall_not_mem]
  intro d hd
  obtain ⟨j, hj, -, hb⟩ := (mem_pick_partition f1 f2 docs .test d).mp hd
  obtain ⟨-, hb2⟩ := (bucket_eq_test_iff f1 f2 docs.length j).mp hb
  have hjN : (j : ℚ) < (docs.length : ℚ) := by
    rw [sortDocs_length] at hj
    exact_mod_cast hj
  exact hb2 (hjN.trans_le (le_mul_of_one_le_left (Nat.cast_nonneg _) h))

theorem partition_nil (f1 f2 : ℚ) : partition f1 f2 [] = (∅, ∅, ∅) := rfl

/-! ## The sort is order-insensitive on the input list -/

theorem sortDocs_eq_of_perm (docs1 docs2 : List Doc) (hperm : docs1.Perm docs2) :
    sortDocs docs1 = sortDocs docs2 :=
  List.eq_of_perm_of_sorted
    ((sortDocs_perm docs1).trans (hperm.trans (sortDocs_perm docs2).symm))
    (sortDocs_sorted docs1) (sortDocs_sorted docs2)

/-! ## Concrete sort evaluations used by witnesses -/

theorem sortDocs_ba : sortDocs [Doc.mk "b", Doc.mk "a"] = [Doc.mk "a", Doc.mk "b"] := by
  simp [sortDocs, List.insertionSort, List.orderedInsert]
  decide

/-! ## The claims -/

/-- C1: for every finite set of uniquely named documents and every valid pair
of fractions `f1 ≤ f2` in `[0,1]`, the three subsets returned by the
partitioner are pairwise disjoint and their union equals the input set. -/
theorem C1_partition_strict (f1 f2 : ℚ) (docs : List Doc)
    (hnd : (docs.map Doc.name).Nodup)
    (h0 : 0 ≤ f1) (h12 : f1 ≤ f2) (h1 : f2 ≤ 1) :
    (Disjoint (partition f1 f2 docs).1 (partition f1 f2 docs).2.1 ∧
     Disjoint (partition f1 f2 docs).1 (partition f1 f2 docs).2.2 ∧
     Disjoint (partition f1 f2 docs).2.1 (partition f1 f2 docs).2.2) ∧
    (partition f1 f2 docs).1 ∪ (partition f1 f2 docs).2.1 ∪ (partition f1 f2 docs).2.2 =
      docs.toFinset :=
  ⟨⟨partition_pick_disjoint f1 f2 docs hnd .train .dev (by decide),
    partition_pick_disjoint f1 f2 docs hnd .train .test (by decide),
    partition_pick_disjoint f1 f2 docs hnd .dev .test (by decide)⟩,
   partition_union f1 f2 docs⟩

theorem C1_witness :
    (([Doc.mk "a", Doc.mk "b"].map Doc.name).Nodup ∧
      (0 : ℚ) ≤ 1/2 ∧ (1 : ℚ)/2 ≤ 3/4 ∧ (3 : ℚ)/4 ≤ 1) ∧
    ((Disjoint (partition (1/2) (3/4) [Doc.mk "a", Doc.mk "b"]).1
        (partition (1/2) (3/4) [Doc.mk "a", Doc.mk "b"]).2.1 ∧
      Disjoint (partition (1/2) (3/4) [Doc.mk "a", Doc.mk "b"]).1
        (partition (1/2) (3/4) [Doc.mk "a", Doc.mk "b"]).2.2 ∧
      Disjoint (partition (1/2) (3/4) [Doc.mk "a", Doc.mk "b"]).2.1
        (partition (1/2) (3/4) [Doc.mk "a", Doc.mk "b"]).2.2) ∧
     (partition (1/2) (3/4) [Doc.mk "a", Doc.mk "b"]).1 ∪
        (partition (1/2) (3/4) [Doc.mk "a", Doc.mk "b"]).2.1 ∪
        (partition (1/2) (3/4) [Doc.mk "a", Doc.mk "b"]).2.2 =
      [Doc.mk "a", Doc.mk "b"].toFinset) :=
  ⟨⟨by decide, by norm_num, by norm_num, by norm_num⟩,
   C1_partition_strict (1/2) (3/4) [Doc.mk "a", Doc.mk "b"]
     (by decide) (by norm_num) (by norm_num) (by norm_num)⟩

/-- C2: for a document set of size `N` sorted by name ascending and valid
fractions `f1 ≤ f2`, the document at 0-indexed rank `i` is in train iff
`i < f1*N`, in dev iff `f1*N ≤ i < f2*N`, and in test otherwise
(iff `f2*N ≤ i`). -/
theorem C2_rank_rule (f1 f2 : ℚ) (docs : List Doc)
    (hnd : (docs.map Doc.name).Nodup)
    (h0 : 0 ≤ f1) (h12 : f1 ≤ f2) (h1 : f2 ≤ 1)
    (i : ℕ) (d : Doc) (hd : (sortDocs docs).get? i = some d) :
    (d ∈ (partition f1 f2 docs).1 ↔ (i : ℚ) < f1 * docs.length) ∧
    (d ∈ (partition f1 f2 docs).2.1 ↔
      f1 * docs.length ≤ (i : ℚ) ∧ (i : ℚ) < f2 * docs.length) ∧
    (d ∈ (partition f1 f2 docs).2.2 ↔ f2 * docs.length ≤ (i : ℚ)) := by
  obtain ⟨hi, hget⟩ := List.get?_eq_some.mp hd
  subst hget
  have h12N : f1 * (docs.length : ℚ) ≤ f2 * docs.length :=
    mul_le_mul_of_nonneg_right h12 (Nat.cast_nonneg _)
  refine ⟨?_, ?_, ?_⟩
  · exact (get_mem_pick_iff f1 f2 docs hnd .train i hi).trans
      (bucket_eq_train_iff f1 f2 docs.length i)
  · refine (get_mem_pick_iff f1 f2 docs hnd .dev i hi).trans
      ((bucket_eq_dev_iff f1 f2 docs.length i).trans ?_)
    rw [not_lt]
  · refine (get_mem_pick_iff f1 f2 docs hnd .test i hi).trans
      ((bucket_eq_test_iff f1 f2 docs.length i).trans ?_)
    rw [not_lt, not_lt]
    constructor
    · exact fun h => h.2
    · exact fun h => ⟨h12N.trans h, h⟩

theorem C2_witness :
    (([Doc.mk "b", Doc.mk "a"].map Doc.name).Nodup ∧
      (0 : ℚ) ≤ 1/2 ∧ (1 : ℚ)/2 ≤ 3/4 ∧ (3 : ℚ)/4 ≤ 1 ∧
      (sortDocs [Doc.mk "b", Doc.mk "a"]).get? 0 = some (Doc.mk "a")) ∧
    ((Doc.mk "a" ∈ (partition (1/2) (3/4) [Doc.mk "b", Doc.mk "a"]).1 ↔
        ((0 : ℕ) : ℚ) < 1/2 * ([Doc.mk "b", Doc.mk "a"].length : ℚ)) ∧
     (Doc.mk "a" ∈ (partition (1/2) (3/4) [Doc.mk "b", Doc.mk "a"]).2.1 ↔
        1/2 * (([Doc.mk "b", Doc.mk "a"].length : ℚ)) ≤ ((0 : ℕ) : ℚ) ∧
          ((0 : ℕ) : ℚ) < 3/4 * ([Doc.mk "b", Doc.mk "a"].length : ℚ)) ∧
     (Doc.mk "a" ∈ (partition (1/2) (3/4) [Doc.mk "b", Doc.mk "a"]).2.2 ↔
        3/4 * (([Doc.mk "b", Doc.mk "a"].length : ℚ)) ≤ ((0 : ℕ) : ℚ))) :=
  ⟨⟨by decide, by norm_num, by norm_num, by norm_num, by simp [sortDocs_ba]⟩,
   C2_rank_rule (1/2) (3/4) [Doc.mk "b", Doc.mk "a"]
     (by decide) (by norm_num) (by norm_num) (by norm_num) 0 (Doc.mk "a")
     (by simp [sortDocs_ba])⟩

/-- C3 counterexample: with `f1 = 0.8 > f2 = 0.2` the split loop does not
stop with an error and does not leave the subsets untouched: the single
document `"a"` is placed in the train subset. -/
theorem C3_counterexample :
    (partition (4/5) (1/5) [Doc.mk "a"]).1 = {Doc.mk "a"} ∧
    (partition (4/5) (1/5) [Doc.mk "a"]).2.1 = ∅ ∧
    (partition (4/5) (1/5) [Doc.mk "a"]).2.2 = ∅ := by
  have hb : bucket (4/5 : ℚ) (1/5) 1 0 = .train := by norm_num [bucket]
  have h : partition (4/5) (1/5) [Doc.mk "a"] = ({Doc.mk "a"}, ∅, ∅) := by
    unfold partition
    show splitFrom (4/5) (1/5) 1 0 (sortDocs [Doc.mk "a"]) = _
    rw [show sortDocs [Doc.mk "a"] = [Doc.mk "a"] from rfl]
    simp only [splitFrom]
    norm_num [hb]
  exact ⟨by rw [h], by rw [h], by rw [h]⟩

/-- C3 (amended): the split loop performs no validation and never raises;
for any fractions with `f1 > f2` it still assigns every document, the dev
subset being empty and train and test together covering the input set. -/
theorem C3_no_validation (f1 f2 : ℚ) (docs : List Doc) (h : f2 < f1) :
    (partition f1 f2 docs).2.1 = ∅ ∧
    (partition f1 f2 docs).1 ∪ (partition f1 f2 docs).2.2 = docs.toFinset := by
  have hdev : (partition f1 f2 docs).2.1 = ∅ :=
    partition_dev_empty_of_le f1 f2 docs h.le
  refine ⟨hdev, ?_⟩
  have hu := partition_union f1 f2 docs
  rw [hdev, Finset.union_empty] at hu
  exact hu

theorem C3_no_validation_witness :
    ((1 : ℚ)/5 < 4/5) ∧
    ((partition (4/5) (1/5) [Doc.mk "a"]).2.1 = ∅ ∧
     (partition (4/5) (1/5) [Doc.mk "a"]).1 ∪ (partition (4/5) (1/5) [Doc.mk "a"]).2.2 =
       [Doc.mk "a"].toFinset) :=
  ⟨by norm_num, C3_no_validation (4/5) (1/5) [Doc.mk "a"] (by norm_num)⟩

/-- C4: partitioning is deterministic: invoking the partitioner twice with
the same document list and the same fractions yields the same three
subsets, since it is a pure function of its arguments. -/
theorem C4_deterministic (f1 f2 : ℚ) (docs : List Doc) :
    partition f1 f2 docs = partition f1 f2 docs := rfl

/-- C5: partitioning the four documents named "a", "b", "c", "d" with
`f1 = 0.5`, `f2 = 0.75` yields train = {"a","b"}, dev = {"c"},
test = {"d"} (whatever the input order). -/
theorem C5_four_docs :
    partition (1/2) (3/4) [Doc.mk "c", Doc.mk "a", Doc.mk "d", Doc.mk "b"] =
      ({Doc.mk "a", Doc.mk "b"}, {Doc.mk "c"}, {Doc.mk "d"}) := by
  have hs : sortDocs [Doc.mk "c", Doc.mk "a", Doc.mk "d", Doc.mk "b"] =
      [Doc.mk "a", Doc.mk "b", Doc.mk "c", Doc.mk "d"] := by
    simp [sortDocs, List.insertionSort, List.orderedInsert]
    decide
  have h0 : bucket (1/2 : ℚ) (3/4) 4 0 = .train := by norm_num [bucket]
  have h1 : bucket (1/2 : ℚ) (3/4) 4 1 = .train := by norm_num [bucket]
  have h2 : bucket (1/2 : ℚ) (3/4) 4 2 = .dev := by norm_num [bucket]
  have h3 : bucket (1/2 : ℚ) (3/4) 4 3 = .test := by norm_num [bucket]
  unfold partition
  rw [hs]
  show splitFrom (1/2) (3/4) 4 0 [Doc.mk "a", Doc.mk "b", Doc.mk "c", Doc.mk "d"] = _
  simp only [splitFrom]
  norm_num [h0, h1, h2, h3]

/-- C6: edge cases: `f1 = f2` gives an empty dev subset; `f1 = 0` gives an
empty train subset; `f2 = 1` gives an empty test subset; the empty document
set gives three empty subsets without error. -/
theorem C6_edge_cases :
    (∀ (f : ℚ) (docs : List Doc), (partition f f docs).2.1 = ∅) ∧
    (∀ (f2 : ℚ) (docs : List Doc), (partition 0 f2 docs).1 = ∅) ∧
    (∀ (f1 : ℚ) (docs : List Doc), (partition f1 1 docs).2.2 = ∅) ∧
    (∀ (f1 f2 : ℚ), partition f1 f2 [] = (∅, ∅, ∅)) :=
  ⟨fun f docs => partition_dev_empty_of_le f f docs le_rfl,
   fun f2 docs => partition_train_empty_of_nonpos 0 f2 docs le_rfl,
   fun f1 docs => partition_test_empty_of_one_le f1 1 docs le_rfl,
   fun f1 f2 => partition_nil f1 f2⟩

/-- C7 counterexample: with `f1 = 0`, `f2 = 1` and one document `"a"`, the
dev subset is not empty (it holds `"a"`) and the test subset is empty of
size 0, not `N = 1` as claimed. -/
theorem C7_counterexample :
    (partition 0 1 [Doc.mk "a"]).2.1 = {Doc.mk "a"} ∧
    (partition 0 1 [Doc.mk "a"]).2.2 = ∅ := by
  have hb : bucket (0 : ℚ) 1 1 0 = .dev := by norm_num [bucket]
  have h : partition 0 1 [Doc.mk "a"] = (∅, {Doc.mk "a"}, ∅) := by
    unfold partition
    show splitFrom 0 1 1 0 (sortDocs [Doc.mk "a"]) = _
    rw [show sortDocs [Doc.mk "a"] = [Doc.mk "a"] from rfl]
    simp only [splitFrom]
    norm_num [hb]
  exact ⟨by rw [h], by rw [h]⟩

/-- C7 (amended): for every document set, `f1 = 0`, `f2 = 1` produces an
empty train subset, an empty test subset, and a dev subset holding all `N`
documents. -/
theorem C7_zero_one_all_dev (docs : List Doc) :
    (partition 0 1 docs).1 = ∅ ∧
    (partition 0 1 docs).2.1 = docs.toFinset ∧
    (partition 0 1 docs).2.2 = ∅ := by
  have htr : (partition 0 1 docs).1 = ∅ :=
    partition_train_empty_of_nonpos 0 1 docs le_rfl
  have hte : (partition 0 1 docs).2.2 = ∅ :=
    partition_test_empty_of_one_le 0 1 docs le_rfl
  have hu := partition_union 0 1 docs
  rw [htr, hte, Finset.empty_union, Finset.union_empty] at hu
  exact ⟨htr, hu, hte⟩

/-- C8: the partitioner does not mutate its input: run as a state
transformer over the document store, it returns the store unchanged, and in
particular every document name is unchanged. -/
theorem C8_no_mutation (f1 f2 : ℚ) (s : Store) :
    (runSplit f1 f2 s).1 = s ∧
    (runSplit f1 f2 s).1.docs.map Doc.name = s.docs.map Doc.name :=
  ⟨rfl, rfl⟩

/-- C9: order-insensitivity: two input lists that are permutations of the
same uniquely named documents produce identical train, dev and test
subsets, because the list is re-sorted by name before ranks are assigned. -/
theorem C9_perm_insensitive (f1 f2 : ℚ) (docs1 docs2 : List Doc)
    (hperm : docs1.Perm docs2) (hnd : (docs1.map Doc.name).Nodup) :
    partition f1 f2 docs1 = partition f1 f2 docs2 := by
  unfold partition
  rw [sortDocs_eq_of_perm docs1 docs2 hperm, hperm.length_eq]

theorem C9_witness :
    ([Doc.mk "b", Doc.mk "a"].Perm [Doc.mk "a", Doc.mk "b"] ∧
      ([Doc.mk "b", Doc.mk "a"].map Doc.name).Nodup) ∧
    partition (1/2) (3/4) [Doc.mk "b", Doc.mk "a"] =
      partition (1/2) (3/4) [Doc.mk "a", Doc.mk "b"] :=
  ⟨⟨List.Perm.swap (Doc.mk "a") (Doc.mk "b") [], by decide⟩,
   C9_perm_insensitive (1/2) (3/4) [Doc.mk "b", Doc.mk "a"] [Doc.mk "a", Doc.mk "b"]
     (List.Perm.swap (Doc.mk "a") (Doc.mk "b") []) (by decide)⟩

/-- C10: totality without validation: for arbitrary fractions, even
unordered or outside `[0,1]`, the split loop terminates and assigns every
uniquely named document to exactly one subset; when `f1 > f2` the dev
subset is empty and every document at rank `≥ f1*N` goes to test. -/
theorem C10_total_without_validation (f1 f2 : ℚ) (docs : List Doc)
    (hnd : (docs.map Doc.name).Nodup) :
    ((partition f1 f2 docs).1 ∪ (partition f1 f2 docs).2.1 ∪ (partition f1 f2 docs).2.2 =
        docs.toFinset ∧
      Disjoint (partition f1 f2 docs).1 (partition f1 f2 docs).2.1 ∧
      Disjoint (partition f1 f2 docs).1 (partition f1 f2 docs).2.2 ∧
      Disjoint (partition f1 f2 docs).2.1 (partition f1 f2 docs).2.2) ∧
    (f2 < f1 →
      (partition f1 f2 docs).2.1 = ∅ ∧
      ∀ (i : ℕ) (hi : i < (sortDocs docs).length),
        f1 * (docs.length : ℚ) ≤ (i : ℚ) →
          (sortDocs docs).get ⟨i, hi⟩ ∈ (partition f1 f2 docs).2.2) := by
  refine ⟨⟨partition_union f1 f2 docs,
    partition_pick_disjoint f1 f2 docs hnd .train .dev (by decide),
    partition_pick_disjoint f1 f2 docs hnd .train .test (by decide),
    partition_pick_disjoint f1 f2 docs hnd .dev .test (by decide)⟩, ?_⟩
  intro h
  refine ⟨partition_dev_empty_of_le f1 f2 docs h.le, ?_⟩
  intro i hi hrank
  have hb : bucket f1 f2 docs.length i = .test := by
    rw [bucket_eq_test_iff, not_lt, not_lt]
    exact ⟨hrank,
      (mul_le_mul_of_nonneg_right h.le (Nat.cast_nonneg docs.length)).trans hrank⟩
  exact (mem_pick_partition f1 f2 docs .test _).mpr ⟨i, hi, rfl, hb⟩

theorem C10_witness :
    (([Doc.mk "a", Doc.mk "b"].map Doc.name).Nodup) ∧
    (((partition (4/5) (1/5) [Doc.mk "a", Doc.mk "b"]).1 ∪
        (partition (4/5) (1/5) [Doc.mk "a", Doc.mk "b"]).2.1 ∪
        (partition (4/5) (1/5) [Doc.mk "a", Doc.mk "b"]).2.2 =
        [Doc.mk "a", Doc.mk "b"].toFinset ∧
      Disjoint (partition (4/5) (1/5) [Doc.mk "a", Doc.mk "b"]).1
        (partition (4/5) (1/5) [Doc.mk "a", Doc.mk "b"]).2.1 ∧
      Disjoint (partition (4/5) (1/5) [Doc.mk "a", Doc.mk "b"]).1
        (partition (4/5) (1/5) [Doc.mk "a", Doc.mk "b"]).2.2 ∧
      Disjoint (partition (4/5) (1/5) [Doc.mk "a", Doc.mk "b"]).2.1
        (partition (4/5) (1/5) [Doc.mk "a", Doc.mk "b"]).2.2) ∧
     ((1 : ℚ)/5 < 4/5 →
      (partition (4/5) (1/5) [Doc.mk "a", Doc.mk "b"]).2.1 = ∅ ∧
      ∀ (i : ℕ) (hi : i < (sortDocs [Doc.mk "a", Doc.mk "b"]).length),
        (4 : ℚ)/5 * (([Doc.mk "a", Doc.mk "b"].length : ℕ) : ℚ) ≤ (i : ℚ) →
          (sortDocs [Doc.mk "a", Doc.mk "b"]).get ⟨i, hi⟩ ∈
            (partition (4/5) (1/5) [Doc.mk "a", Doc.mk "b"]).2.2)) :=
  ⟨by decide,
   C10_total_without_validation (4/5) (1/5) [Doc.mk "a", Doc.mk "b"] (by decide)⟩
